import Mathlib

/-!
Verification of the two utility scripts of this repository:
`scripts/ddl-gen/extract-ddl.py` (DDL extractor) and
`scripts/task-defn/generate_sql.py` (SQL statement generator).

Strings are embedded as `List Char`.  The concrete regular expressions of
`extract-ddl.py` are embedded as dedicated matchers that mirror Python's
leftmost-search, greedy/backtracking semantics for exactly the patterns the
script uses; `str.strip`, `str.find`, the substring test `in` and the list
comprehension over the lines of `table-list.txt` are embedded as the
corresponding total functions below.
-/

/-- Python whitespace (`str.strip`, regex `\s`), ASCII fragment: space, tab,
newline, carriage return, vertical tab, form feed. -/
def isPySpace (c : Char) : Bool :=
  c = ' ' || c = '\t' || c = '\n' || c = '\r' || c = '\x0b' || c = '\x0c'

/-- ASCII case folding used by `re.IGNORECASE` (code points 65–90 are the
letters `A`–`Z`; this is also how the core `Char.toLower` works). -/
def lowerChar (c : Char) : Char :=
  if 65 ≤ c.toNat ∧ c.toNat ≤ 90 then Char.ofNat (c.toNat + 32) else c

/-- Match a literal character sequence exactly; on success return the rest. -/
def matchLit : List Char → List Char → Option (List Char)
  | [], cs => some cs
  | _ :: _, [] => none
  | l :: ls, c :: cs => if l = c then matchLit ls cs else none

/-- Match a literal character sequence up to ASCII case (`re.IGNORECASE`). -/
def matchLitCI : List Char → List Char → Option (List Char)
  | [], cs => some cs
  | _ :: _, [] => none
  | l :: ls, c :: cs => if lowerChar l = lowerChar c then matchLitCI ls cs else none

/-- One backtracking attempt for `\s*\n`: let `\s*` consume `m` characters
(they must all be whitespace), require a newline, and run the continuation. -/
def wsNlStep (k : List Char → Option (List Char)) (cs : List Char) (m : Nat) :
    Option (List Char) :=
  if (cs.take m).all isPySpace && (cs.drop m).head? == some '\n' then
    k (cs.drop (m + 1))
  else none

/-- Greedy backtracking for `\s*\n`: try the longest `\s*` first. -/
def wsNlAux (k : List Char → Option (List Char)) (cs : List Char) :
    Nat → Option (List Char)
  | 0 => wsNlStep k cs 0
  | m + 1 => wsNlStep k cs (m + 1) <|> wsNlAux k cs m

/-- The regex fragment `\s*\n` followed by the continuation `k`, with Python's
greedy backtracking.  Attempts longer than the maximal whitespace run of `cs`
fail their all-whitespace check, so starting from that run's length is exact. -/
def wsNl (k : List Char → Option (List Char)) (cs : List Char) : Option (List Char) :=
  wsNlAux k cs (cs.takeWhile isPySpace).length

/-- The dash line of the header pattern: `-- ` followed by 28 dashes. -/
def dashLineStr : String := "-- ----------------------------"

/-- The dash line as a character list. -/
def dashLine : List Char := dashLineStr.toList

/-- The literal `-- Table structure for ` (with its trailing space) of
`table_header_pattern`. -/
def tsFor : List Char := ("-- Table structure for ").toList

/-- The tail literal of `next_table_pattern`, which stops at `for`. -/
def tsForNext : List Char := ("-- Table structure for").toList

/-- After the optional schema qualifier: the escaped table name, `\s*\n`, and
the closing dash line (all case-insensitive). -/
def nameTail (name cs : List Char) : Option (List Char) :=
  (matchLitCI name cs).bind fun cs1 =>
    wsNl (fun cs2 => matchLitCI dashLine cs2) cs1

/-- The branch of `table_header_pattern` that takes the optional group
`(?:uat_suncbs_(?:acct|core)db\.)?` and then the name tail.  The alternatives
`acct` and `core` differ in their first character, so committing to whichever
of them matches is equivalent to full backtracking. -/
def matchQualThen (name cs : List Char) : Option (List Char) :=
  (matchLitCI ("uat_suncbs_").toList cs).bind fun a =>
    ((matchLitCI ("acct").toList a <|> matchLitCI ("core").toList a).bind fun b =>
      (matchLitCI ("db.").toList b).bind fun c => nameTail name c)

/-- `table_header_pattern` anchored at the current position (the `^` line-start
condition is checked by the caller): dash line, `\s*\n`, the
`-- Table structure for ` literal, optionally a schema qualifier, the escaped
table name, `\s*\n` and the closing dash line.  The whole pattern is matched
with `re.IGNORECASE`; the greedy optional group is tried before the bare name. -/
def matchHeaderAt (name cs : List Char) : Option (List Char) :=
  (matchLitCI dashLine cs).bind fun cs1 =>
    wsNl (fun cs2 =>
      (matchLitCI tsFor cs2).bind fun cs3 =>
        matchQualThen name cs3 <|> nameTail name cs3) cs1

/-- `next_table_pattern` anchored at the current position.  The script searches
for it with `re.MULTILINE` only, so unlike the initial header match it is
case-sensitive. -/
def matchNextAt (cs : List Char) : Option (List Char) :=
  (matchLit dashLine cs).bind fun cs1 =>
    wsNl (fun cs2 => matchLit tsForNext cs2) cs1

/-- `re.search` with `re.MULTILINE`: scan left to right; at every position that
starts a line (the start of the string, or just after a newline) try the
anchored matcher.  On success return the match position and the length of the
remaining suffix. -/
def reSearchAux (m : List Char → Option (List Char)) :
    List Char → Nat → Bool → Option (Nat × Nat)
  | [], pos, atLS =>
    match (if atLS then m [] else none) with
    | some rest => some (pos, rest.length)
    | none => none
  | c :: cs2, pos, atLS =>
    match (if atLS then m (c :: cs2) else none) with
    | some rest => some (pos, rest.length)
    | none => reSearchAux m cs2 (pos + 1) (c == '\n')

/-- `re.search(table_header_pattern, content, re.MULTILINE | re.IGNORECASE)`:
returns `(match.start, match.end)` of the leftmost match. -/
def searchHeader (name content : List Char) : Option (Nat × Nat) :=
  (reSearchAux (matchHeaderAt name) content 0 true).map fun pr =>
    (pr.1, content.length - pr.2)

/-- `re.search(next_table_pattern, tail, re.MULTILINE)`: returns `match.start`
of the leftmost match; position 0 of the searched slice counts as a line start. -/
def searchNextHeader (content : List Char) : Option Nat :=
  (reSearchAux matchNextAt content 0 true).map fun pr => pr.1

/-- Python `str.strip()`: drop whitespace from both ends. -/
def pyStrip (cs : List Char) : List Char :=
  ((cs.dropWhile isPySpace).reverse.dropWhile isPySpace).reverse

/-- The trailing-whitespace half of `str.strip()` on its own. -/
def pyStripTail (cs : List Char) : List Char :=
  (cs.reverse.dropWhile isPySpace).reverse

/-- Scan for the first occurrence of `needle`; `i` is the index accumulator. -/
def strFindAux (needle : List Char) : List Char → Nat → Option Nat
  | [], i => if needle.isPrefixOf ([] : List Char) then some i else none
  | c :: hay2, i =>
    if needle.isPrefixOf (c :: hay2) then some i else strFindAux needle hay2 (i + 1)

/-- Python `hay.find(needle, start)`: the index of the first occurrence at or
after `start`, or `-1`. -/
def pyFindI (needle hay : List Char) (start : Nat) : Int :=
  match strFindAux needle (hay.drop start) 0 with
  | some j => ((start + j : Nat) : Int)
  | none => -1

/-- Python `needle in hay` (substring containment). -/
def pyContains (needle hay : List Char) : Bool :=
  (strFindAux needle hay 0).isSome

/-- The regex fragment `.*name` (no DOTALL: `.` stops at newlines) under
`re.IGNORECASE`: some run of non-newline characters followed by `name`. -/
def dotStarName (name : List Char) : List Char → Bool
  | [] => (matchLitCI name ([] : List Char)).isSome
  | c :: cs => (matchLitCI name (c :: cs)).isSome || (c != '\n' && dotStarName name cs)

/-- The literal `DROP TABLE` of the presence check. -/
def dropTableLit : List Char := ("DROP TABLE").toList

/-- Scan every position of the slice for `DROP TABLE.*name`. -/
def hasDropRefAux (name : List Char) : List Char → Bool
  | [] =>
    (match matchLitCI dropTableLit ([] : List Char) with
     | some r => dotStarName name r
     | none => false)
  | c :: cs =>
    (match matchLitCI dropTableLit (c :: cs) with
     | some r => dotStarName name r
     | none => false) || hasDropRefAux name cs

/-- `re.search(rf'DROP TABLE.*{re.escape(table_name)}', ddl, re.IGNORECASE)`
as a Boolean: does the slice reference a DROP of this table? -/
def hasDropRef (name ddl : List Char) : Bool :=
  hasDropRefAux name ddl

/-- The bare 28-dash needle of the two `ddl.find` calls. -/
def dashes28Str : String := "----------------------------"

/-- The 28-dash needle as a character list. -/
def d28 : List Char := dashes28Str.toList

/-- The `drop_statement` built by `extract_table_ddl` when no DROP is present:
`DROP TABLE IF EXISTS "<schema>"."<table>";` plus a blank line, the schema
chosen by the substring test `'acct_db' in sql_file`. -/
def drop_statement (sql_file table_name : List Char) : List Char :=
  ("DROP TABLE IF EXISTS \"").toList ++
    (if pyContains ("acct_db").toList sql_file then ("uat_suncbs_acctdb").toList
      else ("uat_suncbs_coredb").toList) ++
    ("\".\"").toList ++ table_name ++ ("\";\n\n").toList

/-- The DROP-synthesis step of `extract_table_ddl`: if the slice has no
`DROP TABLE.*name` reference, insert `drop_statement` after the newline that
follows the second occurrence of the 28-dash needle (Python's `-1` from a
failed `find('\n', ...)` becomes insertion position 0 after the `+ 1`). -/
def addDropIfMissing (sql_file table_name ddl : List Char) : List Char :=
  if hasDropRef table_name ddl then ddl
  else
    let f1 : Int := pyFindI d28 ddl 0
    let f2 : Int := pyFindI d28 ddl (f1 + 1).toNat
    if f2 = -1 then ddl
    else
      let header_end : Int := pyFindI (['\n']) ddl f2.toNat + 1
      ddl.take header_end.toNat ++ drop_statement sql_file table_name ++
        ddl.drop header_end.toNat

/-- Where the matched table's section ends: at the next case-sensitive
header-start match after the header match's end `e`, or at end of file. -/
def sectionEnd (content : List Char) (e : Nat) : Nat :=
  match searchNextHeader (content.drop e) with
  | some j => e + j
  | none => content.length

/-- `extract_table_ddl(sql_file, table_name)` with the file's text passed as
`content`: find the leftmost header match, cut the section at `sectionEnd`,
strip it, and apply the DROP-synthesis step. -/
def extract_table_ddl (sql_file content table_name : List Char) : Option (List Char) :=
  match searchHeader table_name content with
  | none => none
  | some (s, e) =>
    let ddl := pyStrip ((content.drop s).take (sectionEnd content e - s))
    some (addDropIfMissing sql_file table_name ddl)

/-- Split on newlines (Python's line iteration; each piece is then stripped,
so the separators' placement is immaterial). -/
def splitNl (cs : List Char) : List (List Char) :=
  cs.splitOn '\n'

/-- `read_table_list`: the stripped, nonblank lines of `table-list.txt`, in
order (the generator script parses the file with the same comprehension). -/
def read_table_list (file_content : List Char) : List (List Char) :=
  ((splitNl file_content).map pyStrip).filter fun l => !l.isEmpty

/-- `determine_source_file`: the case-sensitive prefix rule of the extractor. -/
def determine_source_file (table_name : List Char) : List Char :=
  if ("kfa").toList.isPrefixOf table_name || ("kgl").toList.isPrefixOf table_name then
    ("acct_db.sql").toList
  else
    ("core_db.sql").toList

/-- A member of the output archive.  `zipfile.ZipFile.writestr`, given an entry
name rather than a `ZipInfo`, stamps the new entry with the current local time,
and that timestamp is part of the archive's bytes; `dosTime` records it. -/
structure ZipEntry where
  name : List Char
  data : List Char
  dosTime : Nat
deriving DecidableEq, Repr

/-- One loop iteration of `create_zip_with_ddls` without the archive append:
pick the source file for the table; if that file is absent (`None`) the table
is missing, otherwise run `extract_table_ddl` on its text. -/
def processTable (acctC coreC : Option (List Char)) (t : List Char) :
    Option (List Char) :=
  match (if determine_source_file t = ("acct_db.sql").toList then acctC else coreC) with
  | none => none
  | some content => extract_table_ddl (determine_source_file t) content t

/-- `create_zip_with_ddls`: process the tables in order; each success appends a
`<table>.sql` entry (stamped with the run time `now`), each failure appends the
table to the missing list. -/
def create_zip_with_ddls (now : Nat) (acctC coreC : Option (List Char)) :
    List (List Char) → List ZipEntry × List (List Char)
  | [] => ([], [])
  | t :: ts =>
    let rest := create_zip_with_ddls now acctC coreC ts
    match processTable acctC coreC t with
    | some ddl => (⟨t ++ (".sql").toList, ddl, now⟩ :: rest.1, rest.2)
    | none => (rest.1, t :: rest.2)

/-- `get_schema_for_table` of the generator script: the same case-sensitive
prefix rule, with the generator's schema literals. -/
def get_schema_for_table (table_name : List Char) : List Char :=
  if ("kfa").toList.isPrefixOf table_name || ("kgl").toList.isPrefixOf table_name then
    ("sit_suncbs_acctdb").toList
  else
    ("sit_suncbs_coredb").toList

/-- The generator's DELETE statement for one table. -/
def delete_stmt (t grp : List Char) : List Char :=
  ("delete from kapp_data_expr_defn where lgl_pern_code = '6666' and data_expr_id = '").toList
    ++ t ++ ("' and data_expr_grp_code = '").toList ++ grp
    ++ ("' and file_tp = 'parquet';").toList

/-- The generator's templated SELECT text (the doubled-quote placeholder is
literal text, reproduced verbatim). -/
def select_clause (t : List Char) : List Char :=
  ("select a.* from ").toList ++ t
    ++ (" a where a.lgl_pern_code = ''$\x7blgl_pern_code\x7d'' ").toList

/-- The generator's INSERT statement for one table (`data_expr_id` is the table
name itself). -/
def insert_stmt (t grp : List Char) : List Char :=
  ("INSERT INTO kapp_data_expr_defn (lgl_pern_code,data_expr_id,data_expr_grp_code,data_expr_tab_nm,expr_sql_sentc,wthr_rgst_tmstp,wthr_concurrent_exec,concurrent_num,fld_seprtr,file_tp,file_gen_way,file_nm,file_comps_way,file_comps_type,wthr_gen_succ_file,wthr_file_upld,file_local_path,file_remote_path,wthr_vld,comt_info,sharding_hash_key) VALUES\n\t ('6666','").toList
    ++ t ++ ("','").toList ++ grp ++ ("','").toList ++ t ++ ("','").toList
    ++ select_clause t
    ++ ("','0','0',5,'@|@','parquet','0','").toList ++ t
    ++ ("','0',NULL,'1','1','").toList ++ t ++ ("','").toList ++ t
    ++ ("','1',NULL,NULL);").toList

/-- The accumulation loop of `generate_sql_statements`: statement lists for the
accounting and core groups (each table contributes DELETE, INSERT and a blank
separator to its group's list, in table order) and the two group counters. -/
def genLists : List (List Char) → List (List Char) × List (List Char) × Nat × Nat
  | [] => ([], [], 0, 0)
  | t :: ts =>
    let r := genLists ts
    if get_schema_for_table t = ("sit_suncbs_acctdb").toList then
      (delete_stmt t ("acct").toList :: insert_stmt t ("acct").toList :: [] :: r.1,
        r.2.1, r.2.2.1 + 1, r.2.2.2)
    else
      (r.1,
        delete_stmt t ("core").toList :: insert_stmt t ("core").toList :: [] :: r.2.1,
        r.2.2.1, r.2.2.2 + 1)

/-- The header comment written at the top of `acct.sql`. -/
def acctHeaderText (n : Nat) : List Char :=
  ("-- Generated SQL statements for Accounting DB data export definitions\n-- Based on table-list.txt\n-- Accounting DB (sit_suncbs_acctdb): ").toList
    ++ (Nat.repr n).toList ++ (" tables\n\n").toList

/-- The header comment written at the top of `core.sql`. -/
def coreHeaderText (n : Nat) : List Char :=
  ("-- Generated SQL statements for Core DB data export definitions\n-- Based on table-list.txt\n-- Core DB (sit_suncbs_coredb): ").toList
    ++ (Nat.repr n).toList ++ (" tables\n\n").toList

/-- `generate_sql_statements` as a pure function from the parsed table list to
the texts of `acct.sql` and `core.sql`: each file is its header comment
followed by its group's statements joined with newlines. -/
def generate_sql_statements (tables : List (List Char)) : List Char × List Char :=
  let r := genLists tables
  (acctHeaderText r.2.2.1 ++ List.intercalate (("\n").toList) r.1,
    coreHeaderText r.2.2.2 ++ List.intercalate (("\n").toList) r.2.1)

/-- A canonical table-section header block, exactly as `table_header_pattern`
expects it and as the dump files write it: dash line, `-- Table structure for `
plus the name, dash line. -/
def mkHeader (name : List Char) : List Char :=
  dashLine ++ ('\n' :: (tsFor ++ name)) ++ ('\n' :: dashLine)

/-!
Helper lemmas shared by several claims.
-/

/-- The archive loop, characterised: entries are the successful extractions in
table order, the missing list is the failing tables in order. -/
theorem create_zip_spec (now : Nat) (acctC coreC : Option (List Char))
    (ts : List (List Char)) :
    create_zip_with_ddls now acctC coreC ts =
      (ts.filterMap fun t => (processTable acctC coreC t).map
          fun d => ZipEntry.mk (t ++ (".sql").toList) d now,
        ts.filter fun t => (processTable acctC coreC t).isNone) := by
  induction ts with
  | nil => rfl
  | cons t ts ih =>
    simp only [create_zip_with_ddls, ih]
    cases hp : processTable acctC coreC t <;>
      simp [List.filterMap_cons, List.filter_cons, hp]

/-- Conservation: every requested table lands in exactly one of the two output
lists. -/
theorem create_zip_length (now : Nat) (acctC coreC : Option (List Char))
    (ts : List (List Char)) :
    (create_zip_with_ddls now acctC coreC ts).1.length +
      (create_zip_with_ddls now acctC coreC ts).2.length = ts.length := by
  induction ts with
  | nil => rfl
  | cons t ts ih =>
    simp only [create_zip_with_ddls]
    cases hp : processTable acctC coreC t <;> simp [hp] <;> omega

/-- C5: classification is a total pure function into exactly two groups: a
`kfa`/`kgl` prefix (case-sensitive) selects the accounting group
(`acct_db.sql` in the extractor, `sit_suncbs_acctdb` in the generator), and
every other name the core group (`core_db.sql` / `sit_suncbs_coredb`). -/
theorem claim5_classifier_total (t : List Char) :
    (determine_source_file t = ("acct_db.sql").toList ∨
      determine_source_file t = ("core_db.sql").toList) ∧
    (determine_source_file t = ("acct_db.sql").toList ↔
      (("kfa").toList.isPrefixOf t || ("kgl").toList.isPrefixOf t) = true) ∧
    (get_schema_for_table t = ("sit_suncbs_acctdb").toList ↔
      (("kfa").toList.isPrefixOf t || ("kgl").toList.isPrefixOf t) = true) ∧
    (get_schema_for_table t = ("sit_suncbs_acctdb").toList ∨
      get_schema_for_table t = ("sit_suncbs_coredb").toList) := by
  have hca : ("core_db.sql").toList ≠ ("acct_db.sql").toList := by decide
  have hcs : ("sit_suncbs_coredb").toList ≠ ("sit_suncbs_acctdb").toList := by decide
  cases h : (("kfa").toList.isPrefixOf t || ("kgl").toList.isPrefixOf t) with
  | true =>
    have e1 : determine_source_file t = ("acct_db.sql").toList := by
      unfold determine_source_file; rw [if_pos h]
    have e2 : get_schema_for_table t = ("sit_suncbs_acctdb").toList := by
      unfold get_schema_for_table; rw [if_pos h]
    exact ⟨Or.inl e1, by simp [e1], by simp [e2], Or.inl e2⟩
  | false =>
    have hne : ¬(("kfa").toList.isPrefixOf t || ("kgl").toList.isPrefixOf t) = true := by
      rw [h]; exact Bool.false_ne_true
    have e1 : determine_source_file t = ("core_db.sql").toList := by
      unfold determine_source_file; rw [if_neg hne]
    have e2 : get_schema_for_table t = ("sit_suncbs_coredb").toList := by
      unfold get_schema_for_table; rw [if_neg hne]
    exact ⟨Or.inr e1, by simp [e1, hca, hne], by simp [e2, hcs, hne], Or.inr e2⟩

/-- C10: the number of archive entries plus the number of missing tables
equals the number of requested tables; the entries are exactly one
`<table>.sql` member per successful extraction, in order; the missing list is
exactly the failing tables; and a table whose selected source file is absent
is recorded as missing rather than aborting the batch. -/
theorem claim10_conservation (now : Nat) (acctC coreC : Option (List Char))
    (ts : List (List Char)) :
    (create_zip_with_ddls now acctC coreC ts).1.length +
      (create_zip_with_ddls now acctC coreC ts).2.length = ts.length ∧
    (create_zip_with_ddls now acctC coreC ts).1 =
      (ts.filterMap fun t => (processTable acctC coreC t).map
        fun d => ZipEntry.mk (t ++ (".sql").toList) d now) ∧
    (create_zip_with_ddls now acctC coreC ts).2 =
      (ts.filter fun t => (processTable acctC coreC t).isNone) ∧
    ∀ t ∈ ts,
      (if determine_source_file t = ("acct_db.sql").toList then acctC else coreC) = none →
        t ∈ (create_zip_with_ddls now acctC coreC ts).2 := by
  refine ⟨create_zip_length now acctC coreC ts, ?_, ?_, ?_⟩
  · rw [create_zip_spec]
  · rw [create_zip_spec]
  · intro t ht hsel
    rw [create_zip_spec]
    refine List.mem_filter.mpr ⟨ht, ?_⟩
    unfold processTable
    rw [hsel]
    rfl

/-- C7 counterexample: with unchanged inputs, two runs of the extractor at
different clock times produce archives that differ (in the per-entry
timestamp), so the output files are not byte-identical. -/
theorem claim7_cex :
    create_zip_with_ddls 0 none
        (some (("-- ----------------------------\n-- Table structure for t\n-- ----------------------------\nDROP TABLE t;").toList))
        [("t").toList] ≠
      create_zip_with_ddls 1 none
        (some (("-- ----------------------------\n-- Table structure for t\n-- ----------------------------\nDROP TABLE t;").toList))
        [("t").toList] := by decide

/-- C7 amended: the outputs are fully determined by the input files except for
the archive's per-entry timestamps: two runs at any clock times produce
entries that agree on names and contents (and the same missing list), each
entry stamped with its run's time; the generator's outputs carry no run time
at all, hence re-running it is byte-identical. -/
theorem claim7_deterministic_up_to_timestamps (now1 now2 : Nat)
    (acctC coreC : Option (List Char)) (ts : List (List Char)) :
    ((create_zip_with_ddls now1 acctC coreC ts).1.map fun e => (e.name, e.data)) =
      ((create_zip_with_ddls now2 acctC coreC ts).1.map fun e => (e.name, e.data)) ∧
    (create_zip_with_ddls now1 acctC coreC ts).2 =
      (create_zip_with_ddls now2 acctC coreC ts).2 ∧
    (∀ e ∈ (create_zip_with_ddls now1 acctC coreC ts).1, e.dosTime = now1) := by
  induction ts with
  | nil => exact ⟨rfl, rfl, by intro e he; cases he⟩
  | cons t ts ih =>
    obtain ⟨ih1, ih2, ih3⟩ := ih
    simp only [create_zip_with_ddls]
    cases hp : processTable acctC coreC t with
    | none => exact ⟨ih1, by rw [ih2], ih3⟩
    | some ddl =>
      refine ⟨by simpa using ih1, ih2, ?_⟩
      intro e he
      rcases List.mem_cons.mp he with h | h
      · rw [h]
      · exact ih3 e h

/-- C9: an empty or all-blank table list parses to the empty list; on it the
extractor's archive has zero entries and nothing missing, and the generator
writes both files as their bare header comments with a count of 0 and no
statement pairs. -/
theorem claim9_empty_list (now : Nat) (acctC coreC : Option (List Char))
    (content : List Char) (h : ∀ l ∈ splitNl content, pyStrip l = []) :
    read_table_list content = [] ∧
    create_zip_with_ddls now acctC coreC (read_table_list content) = ([], []) ∧
    generate_sql_statements (read_table_list content) =
      (("-- Generated SQL statements for Accounting DB data export definitions\n-- Based on table-list.txt\n-- Accounting DB (sit_suncbs_acctdb): 0 tables\n\n").toList,
        ("-- Generated SQL statements for Core DB data export definitions\n-- Based on table-list.txt\n-- Core DB (sit_suncbs_coredb): 0 tables\n\n").toList) := by
  have hempty : read_table_list content = [] := by
    refine List.filter_eq_nil_iff.mpr ?_
    intro a ha
    rcases List.mem_map.mp ha with ⟨l, hl, rfl⟩
    rw [h l hl]
    decide
  refine ⟨hempty, ?_, ?_⟩
  · rw [hempty]
    rfl
  · rw [hempty]
    decide

/-- C9 witness: a table list of blanks and empty lines. -/
theorem claim9_empty_list_witness :
    read_table_list ((" \n\t\n  ").toList) = [] ∧
    create_zip_with_ddls 0 none none (read_table_list ((" \n\t\n  ").toList)) = ([], []) ∧
    generate_sql_statements (read_table_list ((" \n\t\n  ").toList)) =
      (("-- Generated SQL statements for Accounting DB data export definitions\n-- Based on table-list.txt\n-- Accounting DB (sit_suncbs_acctdb): 0 tables\n\n").toList,
        ("-- Generated SQL statements for Core DB data export definitions\n-- Based on table-list.txt\n-- Core DB (sit_suncbs_coredb): 0 tables\n\n").toList) :=
  claim9_empty_list 0 none none ((" \n\t\n  ").toList) (by decide)

set_option maxRecDepth 16384

/-- C8: on the table list `["kfab_bal", "cust_info"]` the generator routes
`kfab_bal` to `acct.sql` with group code `acct` and `cust_info` to `core.sql`
with group code `core`; each file is exactly its header comment with a table
count of 1 followed by that table's DELETE/INSERT pair in input order. -/
theorem claim8_two_table_run :
    generate_sql_statements [("kfab_bal").toList, ("cust_info").toList] =
      (("-- Generated SQL statements for Accounting DB data export definitions\n-- Based on table-list.txt\n-- Accounting DB (sit_suncbs_acctdb): 1 tables\n\ndelete from kapp_data_expr_defn where lgl_pern_code = '6666' and data_expr_id = 'kfab_bal' and data_expr_grp_code = 'acct' and file_tp = 'parquet';\nINSERT INTO kapp_data_expr_defn (lgl_pern_code,data_expr_id,data_expr_grp_code,data_expr_tab_nm,expr_sql_sentc,wthr_rgst_tmstp,wthr_concurrent_exec,concurrent_num,fld_seprtr,file_tp,file_gen_way,file_nm,file_comps_way,file_comps_type,wthr_gen_succ_file,wthr_file_upld,file_local_path,file_remote_path,wthr_vld,comt_info,sharding_hash_key) VALUES\n\t ('6666','kfab_bal','acct','kfab_bal','select a.* from kfab_bal a where a.lgl_pern_code = ''$\x7blgl_pern_code\x7d'' ','0','0',5,'@|@','parquet','0','kfab_bal','0',NULL,'1','1','kfab_bal','kfab_bal','1',NULL,NULL);\n").toList,
        ("-- Generated SQL statements for Core DB data export definitions\n-- Based on table-list.txt\n-- Core DB (sit_suncbs_coredb): 1 tables\n\ndelete from kapp_data_expr_defn where lgl_pern_code = '6666' and data_expr_id = 'cust_info' and data_expr_grp_code = 'core' and file_tp = 'parquet';\nINSERT INTO kapp_data_expr_defn (lgl_pern_code,data_expr_id,data_expr_grp_code,data_expr_tab_nm,expr_sql_sentc,wthr_rgst_tmstp,wthr_concurrent_exec,concurrent_num,fld_seprtr,file_tp,file_gen_way,file_nm,file_comps_way,file_comps_type,wthr_gen_succ_file,wthr_file_upld,file_local_path,file_remote_path,wthr_vld,comt_info,sharding_hash_key) VALUES\n\t ('6666','cust_info','core','cust_info','select a.* from cust_info a where a.lgl_pern_code = ''$\x7blgl_pern_code\x7d'' ','0','0',5,'@|@','parquet','0','cust_info','0',NULL,'1','1','cust_info','cust_info','1',NULL,NULL);\n").toList) := by
  decide

/-- C6: a requested table whose selected source file exists but contains no
matching header yields `none` from the extraction, contributes no archive
entry, appears exactly once in the missing list, and leaves the processing of
the other tables unchanged. -/
theorem claim6_missing_table (now : Nat) (acctC coreC : Option (List Char))
    (pre post : List (List Char)) (t content : List Char)
    (hsel : (if determine_source_file t = ("acct_db.sql").toList then acctC else coreC) =
      some content)
    (hnf : searchHeader t content = none)
    (hpre : t ∉ pre) (hpost : t ∉ post) :
    extract_table_ddl (determine_source_file t) content t = none ∧
    (create_zip_with_ddls now acctC coreC (pre ++ t :: post)).2.count t = 1 ∧
    (create_zip_with_ddls now acctC coreC (pre ++ t :: post)).1 =
      (create_zip_with_ddls now acctC coreC pre).1 ++
        (create_zip_with_ddls now acctC coreC post).1 ∧
    ∀ e ∈ (create_zip_with_ddls now acctC coreC (pre ++ t :: post)).1,
      e.name ≠ t ++ (".sql").toList := by
  have hex : extract_table_ddl (determine_source_file t) content t = none := by
    unfold extract_table_ddl
    rw [hnf]
  have hproc : processTable acctC coreC t = none := by
    unfold processTable
    rw [hsel]
    exact hex
  have hentries :
      (create_zip_with_ddls now acctC coreC (pre ++ t :: post)).1 =
        (create_zip_with_ddls now acctC coreC pre).1 ++
          (create_zip_with_ddls now acctC coreC post).1 := by
    rw [create_zip_spec, create_zip_spec, create_zip_spec]
    simp [List.filterMap_append, List.filterMap_cons, hproc]
  refine ⟨hex, ?_, hentries, ?_⟩
  · rw [create_zip_spec]
    simp only [List.filter_append, List.filter_cons, hproc, Option.isNone_none,
      if_pos, List.count_append]
    have c1 : (pre.filter fun x => (processTable acctC coreC x).isNone).count t = 0 := by
      refine List.count_eq_zero.mpr fun hmem => hpre (List.mem_of_mem_filter hmem)
    have c2 : (post.filter fun x => (processTable acctC coreC x).isNone).count t = 0 := by
      refine List.count_eq_zero.mpr fun hmem => hpost (List.mem_of_mem_filter hmem)
    rw [c1, List.count_cons_self, c2]
  · intro e he heq
    rw [hentries] at he
    rcases List.mem_append.mp he with h | h <;>
    · rw [create_zip_spec] at h
      rcases List.mem_filterMap.mp h with ⟨t', ht', hmap⟩
      rcases Option.map_eq_some'.mp hmap with ⟨d, _, hd⟩
      have : t' = t := by
        have := congrArg ZipEntry.name hd
        simp only at this
        rw [heq] at this
        exact List.append_left_injective _ this
      first
      | exact hpre (this ▸ ht')
      | exact hpost (this ▸ ht')

/-- C6 witness: `zz` maps to the core file, whose text `hello` has no header. -/
theorem claim6_missing_table_witness :
    extract_table_ddl (determine_source_file (("zz").toList)) (("hello").toList)
        (("zz").toList) = none ∧
    (create_zip_with_ddls 0 none (some (("hello").toList)) ([] ++ ("zz").toList :: [])).2.count
        (("zz").toList) = 1 ∧
    (create_zip_with_ddls 0 none (some (("hello").toList)) ([] ++ ("zz").toList :: [])).1 =
      (create_zip_with_ddls 0 none (some (("hello").toList)) []).1 ++
        (create_zip_with_ddls 0 none (some (("hello").toList)) []).1 ∧
    ∀ e ∈ (create_zip_with_ddls 0 none (some (("hello").toList)) ([] ++ ("zz").toList :: [])).1,
      e.name ≠ ("zz").toList ++ (".sql").toList :=
  claim6_missing_table 0 none (some (("hello").toList)) [] [] (("zz").toList)
    (("hello").toList) (by decide) (by decide)
    (List.not_mem_nil _) (List.not_mem_nil _)

/-!
Lemmas about the embedded matchers, used by the extraction claims.
-/

/-- A case-insensitive literal consumes itself and leaves the rest. -/
theorem matchLitCI_self (l r : List Char) : matchLitCI l (l ++ r) = some r := by
  induction l with
  | nil => rfl
  | cons c cs ih => simpa [matchLitCI] using ih

/-- A case-sensitive literal consumes itself and leaves the rest. -/
theorem matchLit_self (l r : List Char) : matchLit l (l ++ r) = some r := by
  induction l with
  | nil => rfl
  | cons c cs ih => simpa [matchLit] using ih

/-- On `'\n'` followed by a non-whitespace character, the greedy `\s*\n` is
forced to take exactly the newline. -/
theorem wsNl_cons_newline (k : List Char → Option (List Char)) (c : Char)
    (t : List Char) (hc : isPySpace c = false) :
    wsNl k ('\n' :: c :: t) = k (c :: t) := by
  have hnl : isPySpace '\n' = true := by decide
  have h1 : ('\n' :: c :: t).takeWhile isPySpace = ['\n'] := by
    simp [List.takeWhile_cons, hnl, hc]
  have hcn : (c == '\n') = false := by
    cases hb : c == '\n' with
    | false => rfl
    | true => rw [eq_of_beq hb] at hc; exact absurd hc (by decide)
  unfold wsNl
  rw [h1]
  show (wsNlStep k ('\n' :: c :: t) 1 <|> wsNlStep k ('\n' :: c :: t) 0) = k (c :: t)
  have hs1 : wsNlStep k ('\n' :: c :: t) 1 = none := by
    unfold wsNlStep
    simp [hcn]
  have hs0 : wsNlStep k ('\n' :: c :: t) 0 = k (c :: t) := by
    unfold wsNlStep
    simp
  rw [hs1, hs0]
  rfl

/-- The fragment `\s*\n` fails on a string whose first character is not
whitespace. -/
theorem wsNl_head_nonspace (k : List Char → Option (List Char)) (c : Char)
    (t : List Char) (hc : isPySpace c = false) :
    wsNl k (c :: t) = none := by
  have hcn : (c == '\n') = false := by
    cases hb : c == '\n' with
    | false => rfl
    | true => rw [eq_of_beq hb] at hc; exact absurd hc (by decide)
  unfold wsNl
  have h0 : ((c :: t).takeWhile isPySpace).length = 0 := by
    simp [List.takeWhile_cons, hc]
  rw [h0]
  show wsNlStep k (c :: t) 0 = none
  unfold wsNlStep
  simp [hcn]

/-- The fragment `\s*\n` fails on the empty string. -/
theorem wsNl_nil (k : List Char → Option (List Char)) : wsNl k [] = none := by
  rfl

/-- C1 counterexample: the next-header search is performed without
`re.IGNORECASE`, so a following header block written as
`-- TABLE STRUCTURE FOR c` — which the initial (case-insensitive) header match
does recognise as a header block for `c` — does not terminate the section of
`b`: extracting `b` returns everything up to end of file, including all of
`c`'s section, instead of exactly the text between the two headers. -/
theorem claim1_beyond_next_header_cex :
    extract_table_ddl (("core_db.sql").toList)
        (("-- ----------------------------\n-- Table structure for b\n-- ----------------------------\nDROP TABLE b;\n-- ----------------------------\n-- TABLE STRUCTURE FOR c\n-- ----------------------------\nx").toList)
        (("b").toList) ≠
      some (("-- ----------------------------\n-- Table structure for b\n-- ----------------------------\nDROP TABLE b;").toList) ∧
    extract_table_ddl (("core_db.sql").toList)
        (("-- ----------------------------\n-- Table structure for b\n-- ----------------------------\nDROP TABLE b;\n-- ----------------------------\n-- TABLE STRUCTURE FOR c\n-- ----------------------------\nx").toList)
        (("b").toList) =
      some (("-- ----------------------------\n-- Table structure for b\n-- ----------------------------\nDROP TABLE b;\n-- ----------------------------\n-- TABLE STRUCTURE FOR c\n-- ----------------------------\nx").toList) ∧
    (searchHeader (("c").toList)
        (("-- ----------------------------\n-- Table structure for b\n-- ----------------------------\nDROP TABLE b;\n-- ----------------------------\n-- TABLE STRUCTURE FOR c\n-- ----------------------------\nx").toList)).isSome = true := by
  decide

/-!
Lemmas about the embedded `str.find`, used by the DROP-synthesis claim.
-/

/-- The 28-dash needle, written as a replicate. -/
theorem d28_replicate : d28 = List.replicate 28 '-' := by decide

/-- The dash line split into its `-- ` head and the 28-dash needle. -/
theorem dashLine_decomp : dashLine = '-' :: '-' :: ' ' :: d28 := by decide

/-- A find lands where the needle is a prefix. -/
theorem strFindAux_here (d cs : List Char) (i : Nat) (h : d.isPrefixOf cs = true) :
    strFindAux d cs i = some i := by
  cases cs <;> unfold strFindAux <;> rw [if_pos h]

/-- A find steps over a position where the needle is not a prefix. -/
theorem strFindAux_cons_step (d : List Char) (c : Char) (cs : List Char) (i : Nat)
    (h : d.isPrefixOf (c :: cs) = false) :
    strFindAux d (c :: cs) i = strFindAux d cs (i + 1) := by
  show (if d.isPrefixOf (c :: cs) = true then some i else strFindAux d cs (i + 1)) =
    strFindAux d cs (i + 1)
  rw [if_neg (by simp [h])]

/-- A list is a prefix of itself followed by anything. -/
theorem isPrefixOf_self_append (d r : List Char) : d.isPrefixOf (d ++ r) = true := by
  induction d with
  | nil => simp [List.isPrefixOf]
  | cons a s ih => simp [List.isPrefixOf, ih]

/-- A find skips a whole segment none of whose characters can start the
needle. -/
theorem strFindAux_skip_seg (x : Char) (d : List Char) (seg : List Char)
    (hseg : ∀ c ∈ seg, c ≠ x) :
    ∀ rest i, strFindAux (x :: d) (seg ++ rest) i = strFindAux (x :: d) rest (i + seg.length) := by
  induction seg with
  | nil => intro rest i; simp
  | cons a s ih =>
    intro rest i
    have ha : a ≠ x := hseg a (List.mem_cons_self a s)
    have hxa : (x == a) = false := by
      cases hb : x == a with
      | false => rfl
      | true => exact absurd (eq_of_beq hb).symm ha
    have hpre : (x :: d).isPrefixOf (a :: (s ++ rest)) = false := by
      simp [List.isPrefixOf, hxa]
    rw [List.cons_append, strFindAux_cons_step _ _ _ _ hpre,
      ih (fun c hc => hseg c (List.mem_cons_of_mem a hc)) rest (i + 1)]
    congr 1
    simp [List.length_cons]
    omega

/-- A long dash run is not a prefix of a shorter dash run followed by a
non-dash character. -/
theorem notPrefix_replicate (j k : Nat) (c : Char) (rest : List Char)
    (hk : k < j) (hc : c ≠ '-') :
    (List.replicate j '-').isPrefixOf (List.replicate k '-' ++ c :: rest) = false := by
  induction k generalizing j with
  | zero =>
    cases j with
    | zero => omega
    | succ j' =>
      have hdc : ('-' == c) = false := by
        cases hb : '-' == c with
        | false => rfl
        | true => exact absurd (eq_of_beq hb).symm hc
      simp [List.replicate_succ, List.isPrefixOf, hdc]
  | succ k' ih =>
    cases j with
    | zero => omega
    | succ j' =>
      have h' : k' < j' := by omega
      simp only [List.replicate_succ, List.cons_append, List.isPrefixOf]
      simp [ih j' h']

/-- A find for the 28-dash needle skips a dash run shorter than 28 that is
terminated by a non-dash character. -/
theorem strFindAux_skip_dashrun (k : Nat) (hk : k < 28) (c : Char) (hc : c ≠ '-') :
    ∀ rest i, strFindAux d28 (List.replicate k '-' ++ c :: rest) i =
      strFindAux d28 (c :: rest) (i + k) := by
  induction k with
  | zero => intro rest i; simp
  | succ k' ih =>
    intro rest i
    have hpre : d28.isPrefixOf (List.replicate (k' + 1) '-' ++ c :: rest) = false := by
      rw [d28_replicate]
      exact notPrefix_replicate 28 (k' + 1) c rest hk hc
    have hstep : List.replicate (k' + 1) '-' ++ c :: rest =
        '-' :: (List.replicate k' '-' ++ c :: rest) := by
      simp [List.replicate_succ]
    rw [hstep] at hpre ⊢
    rw [strFindAux_cons_step _ _ _ _ hpre, ih (by omega) rest (i + 1)]
    congr 1
    omega

/-- The 28-dash needle split off its head. -/
theorem d28_cons : d28 = '-' :: List.replicate 27 '-' := by decide

/-- The table-structure literal split into its `-- ` head and text. -/
theorem tsFor_decomp : tsFor = '-' :: '-' :: ' ' ::
    ("Table structure for ").toList := by decide

/-- A find for the 28-dash needle steps over exactly two dashes followed by a
non-dash character. -/
theorem strFindAux_two_dashes (c : Char) (hc : c ≠ '-') (rest : List Char) (i : Nat) :
    strFindAux d28 ('-' :: '-' :: c :: rest) i = strFindAux d28 (c :: rest) (i + 2) := by
  have h := strFindAux_skip_dashrun 2 (by omega) c hc rest i
  simpa [List.replicate_succ] using h

/-- A find for the 28-dash needle skips a dash-free segment. -/
theorem strFindAux_d28_skip_seg (seg : List Char) (hseg : ∀ c ∈ seg, c ≠ '-')
    (rest : List Char) (i : Nat) :
    strFindAux d28 (seg ++ rest) i = strFindAux d28 rest (i + seg.length) := by
  rw [d28_cons]
  exact strFindAux_skip_seg '-' _ seg hseg rest i

/-- `pyFindI` in terms of the scan of the dropped suffix. -/
theorem pyFindI_of_strFindAux (needle hay : List Char) (start j : Nat)
    (h : strFindAux needle (hay.drop start) 0 = some j) :
    pyFindI needle hay start = ((start + j : Nat) : Int) := by
  unfold pyFindI
  rw [h]

/-- A canonical header block with any suffix, fully right-associated with its
two dash lines split. -/
theorem mkHeader_normal (nB Y : List Char) :
    mkHeader nB ++ Y =
      '-' :: '-' :: ' ' :: (d28 ++ ('\n' :: ((tsFor ++ nB) ++
        ('\n' :: '-' :: '-' :: ' ' :: (d28 ++ Y))))) := by
  simp [mkHeader, dashLine_decomp, List.cons_append, List.append_assoc]

/-- On a canonical header block with any suffix the first 28-dash occurrence
starts at index 3 (inside the opening dash line). -/
theorem pyFindI_d28_first (nB Y : List Char) :
    pyFindI d28 (mkHeader nB ++ Y) 0 = 3 := by
  have hsf : strFindAux d28 ((mkHeader nB ++ Y).drop 0) 0 = some 3 := by
    rw [List.drop_zero, mkHeader_normal, strFindAux_two_dashes ' ' (by decide)]
    have hp : d28.isPrefixOf (' ' :: (d28 ++ ('\n' :: ((tsFor ++ nB) ++
        ('\n' :: '-' :: '-' :: ' ' :: (d28 ++ Y)))))) = false := by
      rw [d28_replicate]
      exact notPrefix_replicate 28 0 ' ' _ (by omega) (by decide)
    rw [strFindAux_cons_step _ _ _ _ hp,
      strFindAux_here _ _ _ (isPrefixOf_self_append _ _)]
  rw [pyFindI_of_strFindAux _ _ _ _ hsf]
  decide

/-- Dropping the `-- -` head of a canonical header block with any suffix. -/
theorem mkHeader_drop4 (nB Y : List Char) :
    (mkHeader nB ++ Y).drop 4 =
      List.replicate 27 '-' ++ ('\n' :: ((tsFor ++ nB) ++
        ('\n' :: '-' :: '-' :: ' ' :: (d28 ++ Y)))) := by
  rw [mkHeader_normal, d28_cons]
  simp only [List.cons_append]
  rfl

/-- On a canonical slice whose table name has no dash, the second 28-dash
occurrence (searched from index 4) starts at index `59 + |name|`: the dashes
of the closing line of the header block. -/
theorem pyFindI_d28_second (nB btail : List Char) (hdash : ∀ c ∈ nB, c ≠ '-') :
    pyFindI d28 (mkHeader nB ++ '\n' :: btail) 4 = ((59 + nB.length : Nat) : Int) := by
  have hT : (("Table structure for ").toList).length = 20 := by decide
  have hdrop4 := mkHeader_drop4 nB ('\n' :: btail)
  have hseg : ∀ c ∈ (((' ' :: ("Table structure for ").toList) ++ nB) ++ ['\n']),
      c ≠ '-' := by
    intro c hc
    rcases List.mem_append.mp hc with hc1 | hc1
    · rcases List.mem_append.mp hc1 with hc2 | hc2
      · exact (by decide : ∀ x ∈ (' ' :: ("Table structure for ").toList), x ≠ '-') c hc2
      · exact hdash c hc2
    · exact (by decide : ∀ x ∈ (['\n'] : List Char), x ≠ '-') c hc1
  have hsf : strFindAux d28 ((mkHeader nB ++ '\n' :: btail).drop 4) 0 =
      some (55 + nB.length) := by
    rw [hdrop4, strFindAux_skip_dashrun 27 (by omega) '\n' (by decide)]
    have hp1 : d28.isPrefixOf ('\n' :: ((tsFor ++ nB) ++
        ('\n' :: '-' :: '-' :: ' ' :: (d28 ++ '\n' :: btail)))) = false := by
      rw [d28_replicate]
      exact notPrefix_replicate 28 0 '\n' _ (by omega) (by decide)
    rw [strFindAux_cons_step _ _ _ _ hp1, tsFor_decomp]
    simp only [List.cons_append, List.append_assoc]
    rw [strFindAux_two_dashes ' ' (by decide)]
    have hseq : ' ' :: (("Table structure for ").toList ++ (nB ++
        ('\n' :: '-' :: '-' :: ' ' :: (d28 ++ '\n' :: btail)))) =
        (((' ' :: ("Table structure for ").toList) ++ nB) ++ ['\n']) ++
          ('-' :: '-' :: ' ' :: (d28 ++ '\n' :: btail)) := by
      simp [List.cons_append, List.append_assoc]
    rw [hseq, strFindAux_d28_skip_seg _ hseg _ _,
      strFindAux_two_dashes ' ' (by decide)]
    have hp2 : d28.isPrefixOf (' ' :: (d28 ++ '\n' :: btail)) = false := by
      rw [d28_replicate]
      exact notPrefix_replicate 28 0 ' ' _ (by omega) (by decide)
    rw [strFindAux_cons_step _ _ _ _ hp2,
      strFindAux_here _ _ _ (isPrefixOf_self_append _ _)]
    congr 1
    simp [List.length_append, List.length_cons, hT]
    omega
  rw [pyFindI_of_strFindAux _ _ _ _ hsf]
  exact Nat.cast_inj.mpr (by omega)

/-- On a canonical slice the first newline at or after the closing dash-line
dashes is at index `87 + |name|`, the end of the header block. -/
theorem pyFindI_nl_closing (nB btail : List Char) :
    pyFindI (['\n']) (mkHeader nB ++ '\n' :: btail) (59 + nB.length) =
      ((87 + nB.length : Nat) : Int) := by
  have h28 : d28.length = 28 := by decide
  have h23 : tsFor.length = 23 := by decide
  have hPlen : ('-' :: '-' :: ' ' :: (d28 ++ ('\n' :: ((tsFor ++ nB) ++
      (['\n', '-', '-', ' '] : List Char))))).length = 59 + nB.length := by
    simp [List.length_append, List.length_cons, h28, h23]
    omega
  have hsplit : mkHeader nB ++ '\n' :: btail =
      ('-' :: '-' :: ' ' :: (d28 ++ ('\n' :: ((tsFor ++ nB) ++
        (['\n', '-', '-', ' '] : List Char))))) ++ (d28 ++ '\n' :: btail) := by
    rw [mkHeader_normal]
    simp [List.cons_append, List.append_assoc]
  have hdropP : (mkHeader nB ++ '\n' :: btail).drop (59 + nB.length) =
      d28 ++ '\n' :: btail := by
    rw [hsplit, List.drop_left' hPlen]
  have hsf : strFindAux (['\n']) ((mkHeader nB ++ '\n' :: btail).drop
      (59 + nB.length)) 0 = some 28 := by
    rw [hdropP, strFindAux_skip_seg '\n' [] d28 (by decide) ('\n' :: btail) 0,
      strFindAux_here _ _ _ (by simp [List.isPrefixOf])]
    simp [h28]
  rw [pyFindI_of_strFindAux _ _ _ _ hsf]
  exact Nat.cast_inj.mpr (by omega)

/-- The length of a canonical header block. -/
theorem mkHeader_length (nB : List Char) : (mkHeader nB).length = 87 + nB.length := by
  have h31 : dashLine.length = 31 := by decide
  have h23 : tsFor.length = 23 := by decide
  simp [mkHeader, List.length_append, List.length_cons, h31, h23]
  omega

/-- The DROP-synthesis step on a canonical slice (no DROP reference, dash-free
table name, nonempty body): the synthesised statement is inserted exactly after
the newline that ends the header block, and the schema comes from the
substring test `'acct_db' in sql_file`. -/
theorem addDrop_canonical (sqlf nB btail : List Char)
    (hnd : hasDropRef nB (mkHeader nB ++ '\n' :: btail) = false)
    (hdash : ∀ c ∈ nB, c ≠ '-') :
    addDropIfMissing sqlf nB (mkHeader nB ++ '\n' :: btail) =
      mkHeader nB ++ '\n' ::
        ((("DROP TABLE IF EXISTS \"").toList ++
          ((if pyContains ("acct_db").toList sqlf then ("uat_suncbs_acctdb").toList
            else ("uat_suncbs_coredb").toList) ++
          (("\".\"").toList ++ (nB ++ ("\";\n\n").toList)))) ++ btail) := by
  have hsplit2 : mkHeader nB ++ '\n' :: btail = (mkHeader nB ++ ['\n']) ++ btail := by
    simp
  have hlen2 : (mkHeader nB ++ ['\n']).length = 88 + nB.length := by
    simp [mkHeader_length]
    omega
  have htake : (mkHeader nB ++ '\n' :: btail).take (88 + nB.length) =
      mkHeader nB ++ ['\n'] := by
    rw [hsplit2, List.take_left' hlen2]
  have hdropbt : (mkHeader nB ++ '\n' :: btail).drop (88 + nB.length) = btail := by
    rw [hsplit2, List.drop_left' hlen2]
  unfold addDropIfMissing
  rw [if_neg (by simp [hnd])]
  dsimp only
  rw [pyFindI_d28_first nB ('\n' :: btail)]
  have e1 : ((3 : Int) + 1).toNat = 4 := by decide
  rw [e1, pyFindI_d28_second nB btail hdash]
  rw [if_neg (by omega)]
  have e2 : (((59 + nB.length : Nat) : Int)).toNat = 59 + nB.length := by omega
  rw [e2, pyFindI_nl_closing nB btail]
  have e3 : ((((87 + nB.length : Nat) : Int)) + 1).toNat = 88 + nB.length := by omega
  rw [e3, htake, hdropbt]
  simp [drop_statement, List.append_assoc]

/-- A find always succeeds on a haystack that contains the needle. -/
theorem strFindAux_isSome_append (needle u v : List Char) (i : Nat) :
    (strFindAux needle ((u ++ needle) ++ v) i).isSome = true := by
  induction u generalizing i with
  | nil =>
    rw [List.nil_append, strFindAux_here _ _ _ (isPrefixOf_self_append _ _)]
    rfl
  | cons c u2 ih =>
    have hstep : ((c :: u2) ++ needle) ++ v = c :: ((u2 ++ needle) ++ v) := by
      simp [List.cons_append]
    rw [hstep]
    cases hp : needle.isPrefixOf (c :: ((u2 ++ needle) ++ v)) with
    | true =>
      rw [strFindAux_here _ _ _ hp]
      rfl
    | false =>
      rw [strFindAux_cons_step _ _ _ _ hp]
      exact ih (i + 1)

/-- On any slice that begins with a canonical header block and lacks a DROP
reference, the DROP-synthesis step splits the slice at some point and inserts
exactly the synthesised `drop_statement` there: the output is the slice with
the statement spliced in and nothing else changed. -/
theorem addDrop_insert_exists (sqlf nB Y : List Char)
    (hnd : hasDropRef nB (mkHeader nB ++ Y) = false) :
    ∃ u v, mkHeader nB ++ Y = u ++ v ∧
      addDropIfMissing sqlf nB (mkHeader nB ++ Y) =
        u ++ drop_statement sqlf nB ++ v := by
  have h2 : ¬ pyFindI d28 (mkHeader nB ++ Y) 4 = -1 := by
    cases hsf : strFindAux d28 ((mkHeader nB ++ Y).drop 4) 0 with
    | none =>
      exfalso
      have hiso := strFindAux_isSome_append d28
        (List.replicate 27 '-' ++ ('\n' :: ((tsFor ++ nB) ++
          (['\n', '-', '-', ' '] : List Char)))) Y 0
      have heq : ((List.replicate 27 '-' ++ ('\n' :: ((tsFor ++ nB) ++
          (['\n', '-', '-', ' '] : List Char)))) ++ d28) ++ Y =
          (mkHeader nB ++ Y).drop 4 := by
        rw [mkHeader_drop4]
        simp [List.cons_append, List.append_assoc]
      rw [heq, hsf] at hiso
      simp at hiso
    | some j =>
      rw [pyFindI_of_strFindAux _ _ _ _ hsf]
      omega
  suffices h : ∃ k : Nat, addDropIfMissing sqlf nB (mkHeader nB ++ Y) =
      (mkHeader nB ++ Y).take k ++ drop_statement sqlf nB ++
        (mkHeader nB ++ Y).drop k by
    obtain ⟨k, hk⟩ := h
    exact ⟨(mkHeader nB ++ Y).take k, (mkHeader nB ++ Y).drop k,
      (List.take_append_drop _ _).symm, hk⟩
  unfold addDropIfMissing
  rw [if_neg (by simp [hnd])]
  dsimp only
  rw [pyFindI_d28_first nB Y]
  have e1 : ((3 : Int) + 1).toNat = 4 := by decide
  rw [e1]
  rw [if_neg h2]
  exact ⟨_, rfl⟩

/-- A canonical header block ends in a dash. -/
theorem mkHeader_reverse_head (nB : List Char) :
    ∃ W, (mkHeader nB).reverse = '-' :: W := by
  have hdlr : dashLine.reverse =
      '-' :: (("-- ---------------------------").toList).reverse := by decide
  refine ⟨(("-- ---------------------------").toList).reverse ++ ['\n'] ++
    (dashLine ++ ('\n' :: (tsFor ++ nB))).reverse, ?_⟩
  unfold mkHeader
  rw [List.reverse_append, List.reverse_cons, hdlr]
  simp [List.cons_append, List.append_assoc]

/-- Stripping a slice that begins with a canonical header block only trims
trailing whitespace: the header starts and ends with a dash, so the leading
trim is the identity and the trailing trim never reaches past the body. -/
theorem pyStrip_mkHeader (nB body : List Char) :
    pyStrip (mkHeader nB ++ body) = mkHeader nB ++ pyStripTail body := by
  obtain ⟨W, hW⟩ := mkHeader_reverse_head nB
  have hlead : (mkHeader nB ++ body).dropWhile isPySpace = mkHeader nB ++ body := by
    conv_lhs => rw [mkHeader_normal nB body]
    rw [List.dropWhile_cons, if_neg (by decide)]
    exact (mkHeader_normal nB body).symm
  unfold pyStrip pyStripTail
  rw [hlead, List.reverse_append, List.dropWhile_append]
  by_cases hcase : (body.reverse.dropWhile isPySpace).isEmpty = true
  · rw [if_pos hcase]
    have hbody0 : body.reverse.dropWhile isPySpace = [] := by
      cases hx : body.reverse.dropWhile isPySpace with
      | nil => rfl
      | cons a l =>
        rw [hx] at hcase
        exact absurd hcase (by simp)
    rw [hbody0, hW, List.dropWhile_cons, if_neg (by decide), ← hW,
      List.reverse_reverse]
    simp
  · rw [if_neg hcase]
    rw [List.reverse_append, List.reverse_reverse]

/-- C2 counterexample: for a table section that consists of the header block
only (the next header follows immediately), the insertion-point computation
finds no newline after the closing dash line, Python's `find` returns `-1`,
and the `+ 1` turns it into position 0: the synthesised DROP statement is
prepended before the header comment block instead of being placed after it. -/
theorem claim2_prepended_drop_cex :
    extract_table_ddl (("core_db.sql").toList)
        (("-- ----------------------------\n-- Table structure for t\n-- ----------------------------\n-- ----------------------------\n-- Table structure for u\n-- ----------------------------\nCREATE TABLE u (x int);").toList)
        (("t").toList) =
      some (("DROP TABLE IF EXISTS \"uat_suncbs_coredb\".\"t\";\n\n-- ----------------------------\n-- Table structure for t\n-- ----------------------------").toList) ∧
    ¬ (("-- ----------------------------\n-- Table structure for t\n-- ----------------------------").toList).isPrefixOf
        (("DROP TABLE IF EXISTS \"uat_suncbs_coredb\".\"t\";\n\n-- ----------------------------\n-- Table structure for t\n-- ----------------------------").toList) = true := by
  decide

/-- C2 amended: for every table — whatever the section's position in the file —
whose matched slice is a canonical header block followed by a body whose
trimmed form still starts with a newline (and whose dash-free name has no DROP
reference in the slice), the returned text is the header block, then the
newline that ends it, then exactly `DROP TABLE IF EXISTS "<schema>"."<table>";`
followed by a blank line, then the rest of the body — with `<schema>` equal to
`uat_suncbs_acctdb` when the source file is `acct_db.sql` and
`uat_suncbs_coredb` otherwise; if the section is header-only the DROP is
prepended before the header instead (the counterexample). -/
theorem claim2_drop_synthesis (sqlf content nB body btail : List Char) (s e : Nat)
    (hf : sqlf = ("acct_db.sql").toList ∨ sqlf = ("core_db.sql").toList)
    (hs : searchHeader nB content = some (s, e))
    (hslice : (content.drop s).take (sectionEnd content e - s) = mkHeader nB ++ body)
    (hbody : pyStripTail body = '\n' :: btail)
    (hnd : hasDropRef nB (mkHeader nB ++ '\n' :: btail) = false)
    (hdash : ∀ c ∈ nB, c ≠ '-') :
    extract_table_ddl sqlf content nB =
      some (mkHeader nB ++ '\n' ::
        ((("DROP TABLE IF EXISTS \"").toList ++
          ((if sqlf = ("acct_db.sql").toList then ("uat_suncbs_acctdb").toList
            else ("uat_suncbs_coredb").toList) ++
          (("\".\"").toList ++ (nB ++ ("\";\n\n").toList)))) ++ btail)) := by
  unfold extract_table_ddl
  rw [hs]
  dsimp only
  rw [hslice, pyStrip_mkHeader, hbody, addDrop_canonical sqlf nB btail hnd hdash]
  rcases hf with hf | hf <;> subst hf
  · rw [if_pos (show pyContains (("acct_db").toList) (("acct_db.sql").toList) = true by
      decide), if_pos rfl]
  · rw [if_neg (show ¬pyContains (("acct_db").toList) (("core_db.sql").toList) = true by
      decide), if_neg (show ¬("core_db.sql").toList = ("acct_db.sql").toList by decide)]

/-- C2 witness: a middle section (another table follows) whose body ends in a
newline, extracted from the core source file. -/
theorem claim2_drop_synthesis_witness :
    extract_table_ddl (("core_db.sql").toList)
        (mkHeader (("t").toList) ++ ("\nCREATE TABLE t (x int);\n").toList ++
          mkHeader (("u").toList) ++ ("\nbodyU").toList) (("t").toList) =
      some (mkHeader (("t").toList) ++ '\n' ::
        ((("DROP TABLE IF EXISTS \"").toList ++
          ((if ("core_db.sql").toList = ("acct_db.sql").toList then
              ("uat_suncbs_acctdb").toList
            else ("uat_suncbs_coredb").toList) ++
          (("\".\"").toList ++ ((("t").toList) ++ ("\";\n\n").toList)))) ++
          (("CREATE TABLE t (x int);").toList))) :=
  claim2_drop_synthesis (("core_db.sql").toList)
    (mkHeader (("t").toList) ++ ("\nCREATE TABLE t (x int);\n").toList ++
      mkHeader (("u").toList) ++ ("\nbodyU").toList)
    (("t").toList) (("\nCREATE TABLE t (x int);\n").toList)
    (("CREATE TABLE t (x int);").toList) 0 88 (Or.inr rfl)
    (by decide) (by decide) (by decide) (by decide) (by decide)

/-- C1 amended: when a dump file is a prefix, then `B`'s canonical header
block, `B`'s body, then `C`'s canonical header block and more, and the
leftmost header match for `B` and the case-sensitive next-header search land
on those blocks, extraction returns exactly the trimmed text from `B`'s header
up to (not including) `C`'s header — unchanged when that slice already
references a DROP of `B`, and otherwise equal to that slice with only the
synthesised `drop_statement` spliced in at one point; nothing before `B`'s
header and nothing from `C`'s section ever appears. -/
theorem claim1_section_boundaries (f nB nC pA body rest : List Char)
    (hs : searchHeader nB (pA ++ mkHeader nB ++ body ++ mkHeader nC ++ rest) =
      some (pA.length, pA.length + (mkHeader nB).length))
    (hn : searchNextHeader (body ++ mkHeader nC ++ rest) = some body.length) :
    (hasDropRef nB (pyStrip (mkHeader nB ++ body)) = true →
      extract_table_ddl f (pA ++ mkHeader nB ++ body ++ mkHeader nC ++ rest) nB =
        some (pyStrip (mkHeader nB ++ body))) ∧
    (hasDropRef nB (pyStrip (mkHeader nB ++ body)) = false →
      ∃ u v, pyStrip (mkHeader nB ++ body) = u ++ v ∧
        extract_table_ddl f (pA ++ mkHeader nB ++ body ++ mkHeader nC ++ rest) nB =
          some (u ++ drop_statement f nB ++ v)) := by
  have hdropE :
      (pA ++ mkHeader nB ++ body ++ mkHeader nC ++ rest).drop
          (pA.length + (mkHeader nB).length) = body ++ mkHeader nC ++ rest := by
    have hassoc : pA ++ mkHeader nB ++ body ++ mkHeader nC ++ rest =
        (pA ++ mkHeader nB) ++ (body ++ mkHeader nC ++ rest) := by
      simp [List.append_assoc]
    rw [hassoc, List.drop_left' (List.length_append _ _)]
  have hdropS :
      (pA ++ mkHeader nB ++ body ++ mkHeader nC ++ rest).drop pA.length =
        mkHeader nB ++ body ++ mkHeader nC ++ rest := by
    have hassoc : pA ++ mkHeader nB ++ body ++ mkHeader nC ++ rest =
        pA ++ (mkHeader nB ++ body ++ mkHeader nC ++ rest) := by
      simp [List.append_assoc]
    rw [hassoc, List.drop_left]
  have htake :
      (mkHeader nB ++ body ++ mkHeader nC ++ rest).take
          ((mkHeader nB).length + body.length) = mkHeader nB ++ body := by
    have hassoc : mkHeader nB ++ body ++ mkHeader nC ++ rest =
        (mkHeader nB ++ body) ++ (mkHeader nC ++ rest) := by
      simp [List.append_assoc]
    rw [hassoc, List.take_left' (List.length_append _ _)]
  have harith : pA.length + (mkHeader nB).length + body.length - pA.length =
      (mkHeader nB).length + body.length := by omega
  have hsec : sectionEnd (pA ++ mkHeader nB ++ body ++ mkHeader nC ++ rest)
      (pA.length + (mkHeader nB).length) =
      pA.length + (mkHeader nB).length + body.length := by
    unfold sectionEnd
    rw [hdropE, hn]
  have hE : extract_table_ddl f (pA ++ mkHeader nB ++ body ++ mkHeader nC ++ rest) nB =
      some (addDropIfMissing f nB (pyStrip (mkHeader nB ++ body))) := by
    unfold extract_table_ddl
    rw [hs]
    dsimp only
    rw [hsec, harith, hdropS, htake]
  constructor
  · intro hd
    rw [hE]
    unfold addDropIfMissing
    rw [if_pos hd]
  · intro hnd
    have hnd2 : hasDropRef nB (mkHeader nB ++ pyStripTail body) = false := by
      rw [← pyStrip_mkHeader]
      exact hnd
    obtain ⟨u, v, huv, hins⟩ := addDrop_insert_exists f nB (pyStripTail body) hnd2
    refine ⟨u, v, ?_, ?_⟩
    · rw [pyStrip_mkHeader]
      exact huv
    · rw [hE, pyStrip_mkHeader, hins]

/-- C1 witness: a two-section dump, extracting the first table, whose slice
already carries its DROP statement. -/
theorem claim1_section_boundaries_witness :
    extract_table_ddl (("core_db.sql").toList)
        (([] : List Char) ++ mkHeader (("b").toList) ++ ("\nDROP TABLE b;\n").toList ++
          mkHeader (("c").toList) ++ ("\nx").toList) (("b").toList) =
      some (pyStrip (mkHeader (("b").toList) ++ ("\nDROP TABLE b;\n").toList)) :=
  (claim1_section_boundaries (("core_db.sql").toList) (("b").toList) (("c").toList)
    [] (("\nDROP TABLE b;\n").toList) (("\nx").toList)
    (by decide) (by decide)).1 (by decide)

/-- C3: whenever the header search for a table succeeds — at any position in
the file, with the header written with or without a schema qualifier — and the
trimmed section slice already references a DROP of the table (the `hasDropRef`
test succeeds), the slice is returned trimmed but otherwise unchanged: no DROP
statement is synthesised and none is duplicated. -/
theorem claim3_no_drop_synthesis (f content nB : List Char) (s e : Nat)
    (hs : searchHeader nB content = some (s, e))
    (hd : hasDropRef nB
      (pyStrip ((content.drop s).take (sectionEnd content e - s))) = true) :
    extract_table_ddl f content nB =
      some (pyStrip ((content.drop s).take (sectionEnd content e - s))) := by
  unfold extract_table_ddl
  rw [hs]
  dsimp only
  unfold addDropIfMissing
  rw [if_pos hd]

/-- C3 witness: a middle section whose header names the table with a schema
qualifier and whose body already carries its DROP statement. -/
theorem claim3_no_drop_synthesis_witness :
    extract_table_ddl (("core_db.sql").toList)
        (("-- ----------------------------\n-- Table structure for uat_suncbs_coredb.b\n-- ----------------------------\nDROP TABLE b;\n").toList ++
          mkHeader (("c").toList) ++ ("\nx").toList) (("b").toList) =
      some (pyStrip (((("-- ----------------------------\n-- Table structure for uat_suncbs_coredb.b\n-- ----------------------------\nDROP TABLE b;\n").toList ++
          mkHeader (("c").toList) ++ ("\nx").toList).drop 0).take
        (sectionEnd (("-- ----------------------------\n-- Table structure for uat_suncbs_coredb.b\n-- ----------------------------\nDROP TABLE b;\n").toList ++
          mkHeader (("c").toList) ++ ("\nx").toList) 106 - 0))) :=
  claim3_no_drop_synthesis (("core_db.sql").toList)
    (("-- ----------------------------\n-- Table structure for uat_suncbs_coredb.b\n-- ----------------------------\nDROP TABLE b;\n").toList ++
      mkHeader (("c").toList) ++ ("\nx").toList) (("b").toList) 0 106
    (by decide) (by decide)

/-!
Characterisation of the header matcher, used by the cross-matching claim.
-/

/-- Lowercasing only ever produces a newline from a newline. -/
theorem lowerChar_eq_newline (c : Char) (h : lowerChar c = '\n') : c = '\n' := by
  unfold lowerChar at h
  by_cases hb : 65 ≤ c.toNat ∧ c.toNat ≤ 90
  · rw [if_pos hb] at h
    exfalso
    have hv : (c.toNat + 32).isValidChar := Or.inl (by omega)
    have ht : (Char.ofNat (c.toNat + 32)).toNat = c.toNat + 32 := by
      rw [Char.ofNat, dif_pos hv]
      rfl
    have h10 := congrArg Char.toNat h
    rw [ht] at h10
    have : ('\n').toNat = 10 := by decide
    omega
  · rw [if_neg hb] at h
    exact h

/-- A successful case-insensitive literal match decomposes the input into a
consumed part (equal to the literal up to lowercasing) and the rest. -/
theorem matchLitCI_some (lit : List Char) : ∀ (cs r : List Char),
    matchLitCI lit cs = some r →
      ∃ pre, cs = pre ++ r ∧ pre.map lowerChar = lit.map lowerChar := by
  induction lit with
  | nil =>
    intro cs r h
    have : cs = r := by simpa [matchLitCI] using h
    exact ⟨[], by simp [this], by simp⟩
  | cons l ls ih =>
    intro cs r h
    cases cs with
    | nil => simp [matchLitCI] at h
    | cons c cs' =>
      by_cases hlc : lowerChar l = lowerChar c
      · rw [show matchLitCI (l :: ls) (c :: cs') =
          (if lowerChar l = lowerChar c then matchLitCI ls cs' else none) from rfl,
          if_pos hlc] at h
        obtain ⟨pre, heq, hmap⟩ := ih cs' r h
        exact ⟨c :: pre, by simp [heq], by simp [hmap, hlc]⟩
      · rw [show matchLitCI (l :: ls) (c :: cs') =
          (if lowerChar l = lowerChar c then matchLitCI ls cs' else none) from rfl,
          if_neg hlc] at h
        exact absurd h (by simp)

/-- A successful name tail decomposes into the consumed name and a rest on
which `\s*\n` plus the closing dash line succeeded. -/
theorem nameTail_some (name cs r : List Char) (h : nameTail name cs = some r) :
    ∃ pre r2, cs = pre ++ r2 ∧ pre.map lowerChar = name.map lowerChar ∧
      wsNl (fun cs2 => matchLitCI dashLine cs2) r2 = some r := by
  unfold nameTail at h
  cases hm : matchLitCI name cs with
  | none => rw [hm] at h; exact absurd h (by simp)
  | some cs1 =>
    rw [hm] at h
    obtain ⟨pre, heq, hmap⟩ := matchLitCI_some name cs cs1 hm
    exact ⟨pre, cs1, heq, hmap, h⟩

/-- A successful qualifier branch decomposes into a consumed schema qualifier
(`uat_suncbs_acctdb.` or `uat_suncbs_coredb.` up to case), the consumed name,
and a rest on which `\s*\n` plus the closing dash line succeeded. -/
theorem matchQualThen_some (name cs r : List Char)
    (h : matchQualThen name cs = some r) :
    ∃ q pre r2, cs = (q ++ pre) ++ r2 ∧
      (q.map lowerChar = (("uat_suncbs_acctdb.").toList).map lowerChar ∨
        q.map lowerChar = (("uat_suncbs_coredb.").toList).map lowerChar) ∧
      pre.map lowerChar = name.map lowerChar ∧
      wsNl (fun cs2 => matchLitCI dashLine cs2) r2 = some r := by
  unfold matchQualThen at h
  cases h1 : matchLitCI ("uat_suncbs_").toList cs with
  | none => rw [h1] at h; exact absurd h (by simp)
  | some a =>
    rw [h1] at h
    simp only [Option.some_bind] at h
    obtain ⟨qU, hequ, hmapu⟩ := matchLitCI_some _ _ _ h1
    cases h2 : matchLitCI ("acct").toList a with
    | some b =>
      rw [h2] at h
      simp only [Option.some_bind, Option.some_orElse] at h
      cases h3 : matchLitCI ("db.").toList b with
      | none => rw [h3] at h; exact absurd h (by simp)
      | some cdb =>
        rw [h3] at h
        obtain ⟨qM, heqm, hmapm⟩ := matchLitCI_some _ _ _ h2
        obtain ⟨qD, heqd, hmapd⟩ := matchLitCI_some _ _ _ h3
        obtain ⟨pre, r2, heqn, hmapn, hws⟩ := nameTail_some _ _ _ h
        refine ⟨qU ++ (qM ++ qD), pre, r2, ?_, Or.inl ?_, hmapn, hws⟩
        · rw [hequ, heqm, heqd, heqn]
          simp [List.append_assoc]
        · rw [List.map_append, List.map_append, hmapu, hmapm, hmapd]
          decide
    | none =>
      rw [h2] at h
      simp only [Option.some_bind, Option.none_orElse] at h
      cases h2' : matchLitCI ("core").toList a with
      | none => rw [h2'] at h; exact absurd h (by simp)
      | some b =>
        rw [h2'] at h
        simp only [Option.some_bind] at h
        cases h3 : matchLitCI ("db.").toList b with
        | none => rw [h3] at h; exact absurd h (by simp)
        | some cdb =>
          rw [h3] at h
          obtain ⟨qM, heqm, hmapm⟩ := matchLitCI_some _ _ _ h2'
          obtain ⟨qD, heqd, hmapd⟩ := matchLitCI_some _ _ _ h3
          obtain ⟨pre, r2, heqn, hmapn, hws⟩ := nameTail_some _ _ _ h
          refine ⟨qU ++ (qM ++ qD), pre, r2, ?_, Or.inr ?_, hmapn, hws⟩
          · rw [hequ, heqm, heqd, heqn]
            simp [List.append_assoc]
          · rw [List.map_append, List.map_append, hmapu, hmapm, hmapd]
            decide

/-- If the continuation `\s*\n …` succeeded right after a consumed part, then
the consumed part ended exactly at the table name of the header (whose
characters carry no whitespace), or it ran past the newline. -/
theorem wsNl_boundary_split (k : List Char → Option (List Char))
    (pre r2 r n2 t : List Char)
    (heq : n2 ++ '\n' :: t = pre ++ r2)
    (h2 : ∀ c ∈ n2, isPySpace c = false)
    (hws : wsNl k r2 = some r) :
    pre = n2 ∨ '\n' ∈ pre := by
  rcases Nat.lt_trichotomy pre.length n2.length with hlt | heqn | hgt
  · exfalso
    have hsplit : n2.take pre.length ++ (n2.drop pre.length ++ '\n' :: t) =
        pre ++ r2 := by
      rw [← List.append_assoc, List.take_append_drop]
      exact heq
    have hlen : (n2.take pre.length).length = pre.length := by
      rw [List.length_take]
      omega
    obtain ⟨hpre, hr2⟩ := List.append_inj hsplit hlen
    have hne2 : n2.drop pre.length ≠ [] := by
      intro hnil
      have := congrArg List.length hnil
      rw [List.length_drop] at this
      simp at this
      omega
    obtain ⟨d, t', hd⟩ := List.exists_cons_of_ne_nil hne2
    have hdmem : d ∈ n2 := by
      have hmem : d ∈ n2.drop pre.length := by
        rw [hd]
        exact List.mem_cons_self d t'
      exact List.mem_of_mem_drop hmem
    have hr2' : r2 = d :: (t' ++ '\n' :: t) := by
      rw [← hr2, hd]
      rfl
    rw [hr2', wsNl_head_nonspace _ _ _ (h2 d hdmem)] at hws
    exact Option.noConfusion hws
  · left
    obtain ⟨hpre, _⟩ := List.append_inj heq (by omega)
    exact hpre.symm
  · right
    have htk := congrArg (List.take pre.length) heq
    rw [List.take_left, List.take_append_eq_append_take] at htk
    have h1' : ('\n' :: t).take (pre.length - n2.length) =
        '\n' :: t.take (pre.length - n2.length - 1) := by
      have he : pre.length - n2.length = (pre.length - n2.length - 1) + 1 := by omega
      rw [he]
      rfl
    rw [h1'] at htk
    rw [← htk]
    exact List.mem_append.mpr (Or.inr (List.mem_cons_self _ _))

/-- A consumed part that case-folds to the table name cannot contain a
newline when the name has no whitespace. -/
theorem no_newline_in_ci_name (pre n1 : List Char)
    (hmap : pre.map lowerChar = n1.map lowerChar)
    (hmem : '\n' ∈ pre) (h1 : ∀ c ∈ n1, isPySpace c = false) : False := by
  have hnl : ('\n' : Char) ∈ pre.map lowerChar := by
    have := List.mem_map_of_mem lowerChar hmem
    rwa [show lowerChar '\n' = '\n' by decide] at this
  rw [hmap] at hnl
  obtain ⟨c, hc, hlc⟩ := List.mem_map.mp hnl
  have hceq : c = '\n' := lowerChar_eq_newline c hlc
  have := h1 c hc
  rw [hceq] at this
  exact absurd this (by decide)

/-- C4 counterexample: the header pattern optionally consumes a schema
qualifier, so the table name `foo` — a proper substring of the table name
`uat_suncbs_acctdb.foo` — does match the longer name's header block. -/
theorem claim4_qualifier_cross_match_cex :
    (matchHeaderAt (("foo").toList)
        (mkHeader (("uat_suncbs_acctdb.foo").toList))).isSome = true ∧
    ("foo").toList <:+: ("uat_suncbs_acctdb.foo").toList ∧
    ("foo").toList ≠ ("uat_suncbs_acctdb.foo").toList ∧
    (extract_table_ddl (("core_db.sql").toList)
        (mkHeader (("uat_suncbs_acctdb.foo").toList) ++
          ("\nCREATE TABLE foo (x int);").toList)
        (("foo").toList)).isSome = true := by
  decide

/-- C4 amended: matching table name `n1` against the header block of a
different table `n2` (whitespace-free names, distinct up to case) fails —
anchoring and escaping prevent every cross-match — unless `n2` is, up to
case, exactly a schema qualifier `uat_suncbs_acctdb.`/`uat_suncbs_coredb.`
followed by `n1`, which the pattern's optional qualifier group consumes. -/
theorem claim4_anchored_no_cross_match (n1 n2 rest : List Char)
    (h1 : ∀ c ∈ n1, isPySpace c = false)
    (h2 : ∀ c ∈ n2, isPySpace c = false)
    (hne : n1.map lowerChar ≠ n2.map lowerChar)
    (hqa : ((("uat_suncbs_acctdb.").toList ++ n1).map lowerChar ≠ n2.map lowerChar))
    (hqc : ((("uat_suncbs_coredb.").toList ++ n1).map lowerChar ≠ n2.map lowerChar)) :
    matchHeaderAt n1 (mkHeader n2 ++ rest) = none := by
  have hform : mkHeader n2 ++ rest =
      dashLine ++ ('\n' :: (tsFor ++ (n2 ++ '\n' :: (dashLine ++ rest)))) := by
    simp [mkHeader, List.cons_append, List.append_assoc]
  unfold matchHeaderAt
  rw [hform, matchLitCI_self]
  simp only [Option.some_bind]
  have hts : ('\n' :: (tsFor ++ (n2 ++ '\n' :: (dashLine ++ rest)))) =
      '\n' :: '-' :: ('-' :: ' ' :: ("Table structure for ").toList ++
        (n2 ++ '\n' :: (dashLine ++ rest))) := by
    rw [tsFor_decomp]
    simp [List.cons_append]
  rw [hts, wsNl_cons_newline _ '-' _ (by decide)]
  have hback : ('-' : Char) :: ('-' :: ' ' :: ("Table structure for ").toList ++
      (n2 ++ '\n' :: (dashLine ++ rest))) =
      tsFor ++ (n2 ++ '\n' :: (dashLine ++ rest)) := by
    rw [tsFor_decomp]
    simp [List.cons_append]
  rw [hback, matchLitCI_self]
  simp only [Option.some_bind]
  have hdirect : nameTail n1 (n2 ++ '\n' :: (dashLine ++ rest)) = none := by
    cases hnt : nameTail n1 (n2 ++ '\n' :: (dashLine ++ rest)) with
    | none => rfl
    | some r =>
      exfalso
      obtain ⟨pre, r2, heqp, hmap, hws⟩ := nameTail_some _ _ _ hnt
      rcases wsNl_boundary_split _ pre r2 r n2 (dashLine ++ rest) heqp h2 hws with
        hcase | hcase
      · rw [hcase] at hmap
        exact hne (hmap ▸ rfl)
      · exact no_newline_in_ci_name pre n1 hmap hcase h1
  have hqual : matchQualThen n1 (n2 ++ '\n' :: (dashLine ++ rest)) = none := by
    cases hq : matchQualThen n1 (n2 ++ '\n' :: (dashLine ++ rest)) with
    | none => rfl
    | some r =>
      exfalso
      obtain ⟨q, pre, r2, heqp, hqor, hmapn, hws⟩ := matchQualThen_some _ _ _ hq
      rcases wsNl_boundary_split _ (q ++ pre) r2 r n2 (dashLine ++ rest) heqp h2 hws with
        hcase | hcase
      · have hm2 : (q ++ pre).map lowerChar = n2.map lowerChar := by rw [hcase]
        rw [List.map_append, hmapn] at hm2
        rcases hqor with hq1 | hq1
        · exact hqa (by rw [List.map_append, ← hq1]; exact hm2)
        · exact hqc (by rw [List.map_append, ← hq1]; exact hm2)
      · rcases List.mem_append.mp hcase with hin | hin
        · have hnl : ('\n' : Char) ∈ q.map lowerChar := by
            have := List.mem_map_of_mem lowerChar hin
            rwa [show lowerChar '\n' = '\n' by decide] at this
          rcases hqor with hq1 | hq1 <;> rw [hq1] at hnl <;> revert hnl <;> decide
        · exact no_newline_in_ci_name pre n1 hmapn hin h1
  rw [hqual, hdirect]
  rfl

/-- C4 witness: a name that is a proper prefix of another never matches the
longer name's header block. -/
theorem claim4_anchored_no_cross_match_witness :
    matchHeaderAt (("foo").toList) (mkHeader (("foobar").toList) ++ ([] : List Char)) =
      none :=
  claim4_anchored_no_cross_match (("foo").toList) (("foobar").toList) []
    (by decide) (by decide) (by decide) (by decide) (by decide)
